import Mathlib

/-!
Verification development for the value-model module (`src/go/src/types/types.go`)
of the jig/mal-fork repository: the tagged-union value representation, the JSON
wire decoding protocol (`ListMalType.UnmarshalJSON` / `JSONUnmarshal`), the
structural equality engine (`Equal_Q`), and the function-application dispatch
(`Apply`, `SetMacro`, `GetMacro`).

Modelling conventions:
- A Go `MalType` (an empty interface) is embedded as the inductive `Value`.
  Each constructor corresponds to one concrete Go dynamic type that the module
  stores in a `MalType`.  Host function pointers (`Func.Fn`, `MalFunc.Eval`,
  `MalFunc.GenEnv`, bare `func([]MalType) (MalType, error)` values) are modelled
  as indices into caller-supplied tables (`Host`), and `*Atom` pointers and
  `EnvType` references as numeric identities.
- Go runtime panics (comparison of uncomparable types, calling a nil function)
  are modelled as `none` in an `Option`-typed result; ordinary `error` returns
  are `Except.error`.
- Go `map[string]...` values are modelled as association lists whose keys are
  distinct; the `nodupKeys*` predicates state that well-formedness where a
  theorem needs it.  Map iteration order is fixed by the list order; for the
  equality engine this is harmless because its per-key loop computes a
  conjunction.
- Go `float64` is modelled exactly as a pair `(m, e)` denoting `m * 2^e`, and
  `strconv.ParseFloat` (as invoked by `encoding/json` without `UseNumber`) as
  correctly-rounded nearest-even conversion of the decimal token.
-/

namespace Mal

/-- A parsed JSON wire tree (one node of the "JSON-shaped" wire format).
`jnum` keeps the exact token text, as `json.RawMessage` does.  Byte-level
lexing is outside the model: the Go code dispatches on the first byte of a
`json.RawMessage`, which is `'{'` exactly for objects and a digit or `'-'`
exactly for number tokens, so that dispatch is constructor dispatch here. -/
inductive J where
  | jnull
  | jbool (b : Bool)
  | jnum (s : String)
  | jstr (s : String)
  | jarr (elems : List J)
  | jobj (fields : List (String × J))

/-- The Go dynamic types the module stores in a `MalType` interface value.
Constructor ↔ Go type:
`nilV` = nil interface, `boolV` = `bool`, `intV` = `int`,
`numV` = `encoding/json.Number` (exact token text), `strV` = `string`
(keywords are strings with the `"ʞ"` prefix), `floatV` = `float64`
(denoting `m * 2^e`), `symV` = `types.Symbol`, `listV` = `types.List`,
`vecV` = `types.Vector`, `hashV` = `types.HashMap` (association list with
distinct keys), `funcV` = `types.Func` (`none` models a nil `Fn` field),
`malfuncV` = `types.MalFunc` (callbacks as table indices, environment as an
identity), `rawfuncV` = a bare `func([]MalType) (MalType, error)`,
`atomPtr` = `*types.Atom` (pointer identity), `atomStructV` = a `types.Atom`
struct value (as produced by the decoder, which appends `Atom{}` by value),
`goSlice` = `[]interface\x7b\x7d`, `goMap` = `map[string]interface\x7b\x7d`
(both produced by generic decoding). -/
inductive Value where
  | nilV
  | boolV (b : Bool)
  | intV (n : Int)
  | numV (s : String)
  | strV (s : String)
  | floatV (m : Int) (e : Int)
  | symV (s : String)
  | listV (elems : List Value) (meta : Value)
  | vecV (elems : List Value) (meta : Value)
  | hashV (entries : List (String × Value)) (meta : Value)
  | funcV (fn : Option Nat) (meta : Value)
  | malfuncV (evalId : Nat) (exp : Value) (envId : Nat) (params : Value)
      (isMacro : Bool) (genEnvId : Nat) (meta : Value)
  | rawfuncV (fn : Nat)
  | atomPtr (ref : Nat)
  | atomStructV (val : Value) (meta : Value)
  | goSlice (elems : List Value)
  | goMap (entries : List (String × Value))

/-- Go errors crossing the module boundary: `goErr` models `errors.New` /
`fmt.Errorf` (the message keeps the Go format-string prefix; wrapped inner
detail is dropped), `malErr` models `types.MalError` boxing a value. -/
inductive Err where
  | goErr (msg : String)
  | malErr (obj : Value)

/-- Distinct tag per Go dynamic type, modelling `reflect.TypeOf` identity
(`reflect.TypeOf(nil)` is nil, which equals itself and no other type). -/
def typeTag : Value → Nat
  | .nilV => 0
  | .boolV _ => 1
  | .intV _ => 2
  | .numV _ => 3
  | .strV _ => 4
  | .floatV _ _ => 5
  | .symV _ => 6
  | .listV _ _ => 7
  | .vecV _ _ => 8
  | .hashV _ _ => 9
  | .funcV _ _ => 10
  | .malfuncV _ _ _ _ _ _ _ => 11
  | .rawfuncV _ => 12
  | .atomPtr _ => 13
  | .atomStructV _ _ => 14
  | .goSlice _ => 15
  | .goMap _ => 16

/-- `Sequential_Q` (types.go:307): true exactly when the reflected type name is
`"List"` or `"Vector"`.  An unnamed `[]interface\x7b\x7d` has name `""`, so
`goSlice` is not sequential. -/
def Sequential_Q : Value → Bool
  | .listV _ _ => true
  | .vecV _ _ => true
  | _ => false

/-- Whether the denoted `float64` values `m1 * 2^e1` and `m2 * 2^e2` are equal
(Go `==` on `float64`; NaN never arises from JSON decoding in this module). -/
def floatEqB (m1 e1 m2 e2 : Int) : Bool :=
  if e1 ≥ e2 then m1 * 2 ^ (e1 - e2).toNat == m2
  else m1 == m2 * 2 ^ (e2 - e1).toNat

/-- Go interface equality `a == b` as it behaves at the `default` branch of
`Equal_Q` and inside struct comparisons: values of different dynamic types are
unequal; values of an uncomparable dynamic type (a struct containing a func or
slice or map field, a bare func, a slice, a map) make the comparison panic,
modelled as `none`.  Struct comparison short-circuits field by field. -/
def goIfaceEq : Value → Value → Option Bool
  | a, b =>
    if typeTag a != typeTag b then some false
    else
      match a, b with
      | .nilV, .nilV => some true
      | .boolV x, .boolV y => some (x == y)
      | .intV x, .intV y => some (x == y)
      | .numV x, .numV y => some (x == y)
      | .strV x, .strV y => some (x == y)
      | .floatV m1 e1, .floatV m2 e2 => some (floatEqB m1 e1 m2 e2)
      | .symV x, .symV y => some (x == y)
      | .atomPtr r1, .atomPtr r2 => some (r1 == r2)
      | .atomStructV v1 mt1, .atomStructV v2 mt2 =>
        match goIfaceEq v1 v2 with
        | none => none
        | some false => some false
        | some true => goIfaceEq mt1 mt2
      | _, _ => none

/-- Go map read `bm[k]` with the zero-value default: a missing key reads as the
nil interface (`Value.nilV`).  Keys of a Go map are distinct, so first-match
lookup on a well-formed association list is exact. -/
def goMapGet : List (String × Value) → String → Value
  | [], _ => .nilV
  | (k, v) :: rest, key => if k == key then v else goMapGet rest key

mutual

/-- `Equal_Q` (types.go:315).  Gate: same `reflect.TypeOf`, or both
`Sequential_Q`.  `Symbol` compares names; `List`/`Vector` (any combination
passing the gate) compare element count then elements pairwise; `HashMap`
compares key count then, for each key of `a`, compares `a`'s value against
`bm[k]` (nil-defaulting); everything else falls to Go `a == b`
(`goIfaceEq`), which panics (`none`) on `Func`, `MalFunc`, bare funcs,
generic slices and maps.  A recursive panic propagates. -/
def Equal_Q : Value → Value → Option Bool
  | a, b =>
    if typeTag a == typeTag b || (Sequential_Q a && Sequential_Q b) then
      match a, b with
      | .symV s, .symV t => some (s == t)
      | .listV xs _, .listV ys _ =>
        if xs.length != ys.length then some false else eqPairs xs ys
      | .listV xs _, .vecV ys _ =>
        if xs.length != ys.length then some false else eqPairs xs ys
      | .vecV xs _, .listV ys _ =>
        if xs.length != ys.length then some false else eqPairs xs ys
      | .vecV xs _, .vecV ys _ =>
        if xs.length != ys.length then some false else eqPairs xs ys
      | .hashV am _, .hashV bm _ =>
        if am.length != bm.length then some false else eqEntries am bm
      | x, y => goIfaceEq x y
    else some false

/-- The element loop of the `List`/`Vector` case of `Equal_Q`: the caller has
already checked equal lengths, so the loop ends at the empty list. -/
def eqPairs : List Value → List Value → Option Bool
  | x :: xs, y :: ys =>
    match Equal_Q x y with
    | none => none
    | some false => some false
    | some true => eqPairs xs ys
  | _, _ => some true

/-- The `for k, v := range am` loop of the `HashMap` case of `Equal_Q`: each
key of `a` is compared against `bm[k]` with the nil default; keys present only
in `bm` are never inspected. -/
def eqEntries : List (String × Value) → List (String × Value) → Option Bool
  | [], _ => some true
  | (k, v) :: rest, bm =>
    match Equal_Q v (goMapGet bm k) with
    | none => none
    | some false => some false
    | some true => eqEntries rest bm

end

/-- `Nil_Q` (types.go:32). -/
def Nil_Q : Value → Bool
  | .nilV => true
  | _ => false

/-- `Number_Q` (types.go:46): a type assertion to the host-native `int`.
`json.Number` is a distinct named type and `float64` is not `int`, so both
fail the assertion. -/
def Number_Q : Value → Bool
  | .intV _ => true
  | _ => false

/-- `Symbol_Q` (types.go:56). -/
def Symbol_Q : Value → Bool
  | .symV _ => true
  | _ => false

/-- `String_Q` (types.go:72): a type assertion to `string`; the named type
`json.Number` does not satisfy it. -/
def String_Q : Value → Bool
  | .strV _ => true
  | _ => false

/-- `MalFunc.SetMacro` (types.go:103).  The Go method has a value receiver, so
it mutates a copy of the struct and returns that copy; the original is
untouched.  The method exists only on `MalFunc`; other inputs are returned
unchanged here and are unreachable in the Go program. -/
def SetMacro : Value → Value
  | .malfuncV ev exp env params _ gen meta => .malfuncV ev exp env params true gen meta
  | v => v

/-- `MalFunc.GetMacro` (types.go:108): reads the `IsMacro` flag. -/
def GetMacro : Value → Bool
  | .malfuncV _ _ _ _ mac _ _ => mac
  | _ => false

/-- Interpretation of the host function pointers stored in values: `evalFn`
interprets `MalFunc.Eval` callbacks, `genEnvFn` interprets `MalFunc.GenEnv`
callbacks (returning the identity of the environment they build), and
`hostFn` interprets `Func.Fn` fields and bare function values. -/
structure Host where
  evalFn : Nat → Value → Nat → Except Err Value
  genEnvFn : Nat → Nat → Value → Value → Except Err Nat
  hostFn : Nat → List Value → Except Err Value

/-- `Apply` (types.go:114).  A `MalFunc` first runs its `GenEnv` callback on
`(f.Env, f.Params, List\x7ba, nil\x7d)`; a builder error is returned as-is
(the `Eval` callback is not consulted), otherwise the result of
`f.Eval(f.Exp, env)` is returned.  A `Func` or a bare function is invoked on
the arguments directly (a nil `Fn` field would be a nil-call panic, `none`).
Every other value hits the `default` branch and returns
`errors.New("Invalid function to Apply")`. -/
def Apply (H : Host) (f_mt : Value) (a : List Value) : Option (Except Err Value) :=
  match f_mt with
  | .malfuncV ev exp env params _ gen _ =>
    match H.genEnvFn gen env params (.listV a .nilV) with
    | .error e => some (.error e)
    | .ok newEnv => some (H.evalFn ev exp newEnv)
  | .funcV (some fn) _ => some (H.hostFn fn a)
  | .funcV none _ => none
  | .rawfuncV fn => some (H.hostFn fn a)
  | _ => some (.error (.goErr "Invalid function to Apply"))

/-- The set of values `Apply` dispatches to a call (the non-`default` cases of
its type switch): `MalFunc`, `Func`, and a bare function. -/
def applyCallable : Value → Bool
  | .malfuncV _ _ _ _ _ _ _ => true
  | .funcV _ _ => true
  | .rawfuncV _ => true
  | _ => false

/-! ## Decoding protocol

`JSONUnmarshal` (types.go:213) decodes with `UseNumber()` and
`DisallowUnknownFields()`.  Its targets in this module are `[]json.RawMessage`,
`json.Number` and `interface\x7b\x7d`, none of which is a struct, so the
unknown-field restriction never fires on those paths.  The tagged-object
branches of `ListMalType.UnmarshalJSON` (types.go:147) use plain
`json.Unmarshal`, which ignores unknown object fields and decodes numbers as
`float64`.  Duplicate keys inside one object are not modelled (theorems about
objects assume distinct field names, which Go callers satisfy). -/

/-- Number of binary digits of `n` (`0` for `0`), computed with a structural
fuel argument so that it reduces definitionally; `n` itself is enough fuel. -/
def bitlenF : Nat → Nat → Nat
  | 0, _ => 0
  | fuel + 1, n => if n = 0 then 0 else bitlenF fuel (n / 2) + 1

def bitlen (n : Nat) : Nat := bitlenF n n

/-- Round the rational `num / den` (`den > 0`) to the nearest integer, ties to
even. -/
def roundNE (num den : Nat) : Nat :=
  let q := num / den
  let r := num % den
  if den < 2 * r then q + 1
  else if 2 * r < den then q
  else if q % 2 = 1 then q + 1 else q

/-- Whether `2 ^ c ≤ n / d` for a possibly negative `c`. -/
def pow2LE (c : Int) (n d : Nat) : Bool :=
  if c ≥ 0 then d * 2 ^ c.toNat ≤ n else d ≤ n * 2 ^ (-c).toNat

/-- Round the positive rational `n / d` to the nearest IEEE-754 binary64
value, ties to even, returning `(m, e)` with value `m * 2 ^ e`; `none` models
the out-of-range error `strconv.ParseFloat` reports on overflow. -/
def roundFloatPos (n d : Nat) : Option (Nat × Int) :=
  let c : Int := (bitlen n : Int) - (bitlen d : Int)
  let e0 : Int := if pow2LE c n d then c else c - 1
  if e0 < -1022 then
    some (roundNE (n * 2 ^ 1074) d, -1074)
  else
    let shift : Int := 52 - e0
    let num := if shift ≥ 0 then n * 2 ^ shift.toNat else n
    let den := if shift ≥ 0 then d else d * 2 ^ (-shift).toNat
    let m := roundNE num den
    let me : Nat × Int := if m = 2 ^ 53 then (2 ^ 52, e0 + 1) else (m, e0)
    if me.2 > 1023 then none else some (me.1, me.2 - 52)

def digitsToNat (cs : List Char) : Nat :=
  cs.foldl (fun acc c => acc * 10 + (c.toNat - 48)) 0

/-- Split a leading fractional part `.ddd` off a character list; `none` when a
dot is not followed by a digit. -/
def splitFrac : List Char → Option (List Char × List Char)
  | '.' :: rest =>
    let p := rest.span Char.isDigit
    if p.1.isEmpty then none else some (p.1, p.2)
  | cs => some ([], cs)

/-- Parse a trailing exponent part `e±ddd`; `none` on malformed input. -/
def splitExp : List Char → Option Int
  | [] => some 0
  | c :: rest =>
    if c = 'e' ∨ c = 'E' then
      let sr : Bool × List Char :=
        match rest with
        | '+' :: r => (false, r)
        | '-' :: r => (true, r)
        | r => (false, r)
      let p := sr.2.span Char.isDigit
      if p.1.isEmpty ∨ ¬ p.2.isEmpty then none
      else some (if sr.1 then -(digitsToNat p.1 : Int) else (digitsToNat p.1 : Int))
    else none

/-- Parse a decimal number token into `(negative, digits, base-10 exponent)`:
the token denotes `(-1)^neg * D * 10^E`.  `none` on malformed tokens. -/
def parseDec (s : String) : Option (Bool × Nat × Int) :=
  let cs := s.toList
  let nc : Bool × List Char :=
    match cs with
    | '-' :: rest => (true, rest)
    | _ => (false, cs)
  let ip := nc.2.span Char.isDigit
  if ip.1.isEmpty then none
  else
    match splitFrac ip.2 with
    | none => none
    | some (fp, cs3) =>
      match splitExp cs3 with
      | none => none
      | some e10 => some (nc.1, digitsToNat (ip.1 ++ fp), e10 - fp.length)

/-- Models `strconv.ParseFloat(s, 64)` as invoked by `encoding/json` when
decoding a number token without `UseNumber`: the correctly-rounded (nearest,
ties to even) `float64` of the decimal token, as `(m, e)` denoting `m * 2^e`;
`none` models the decode error on out-of-range tokens. -/
def goParseFloat (s : String) : Option (Int × Int) :=
  match parseDec s with
  | none => none
  | some (neg, D, E) =>
    if D = 0 then some (0, 0)
    else
      let n := if E ≥ 0 then D * 10 ^ E.toNat else D
      let d := if E ≥ 0 then 1 else 10 ^ (-E).toNat
      match roundFloatPos n d with
      | none => none
      | some (m, e) => some (if neg then -(m : Int) else (m : Int), e)

/-- Replace the value at key `k` (Go map assignment: later duplicate keys win;
insertion keeps the key set duplicate-free). -/
def mapUpsert : List (String × Value) → String → Value → List (String × Value)
  | [], k, v => [(k, v)]
  | (k0, v0) :: rest, k, v =>
    if k0 == k then (k0, v) :: rest else (k0, v0) :: mapUpsert rest k v

mutual

/-- Generic decode into `interface\x7b\x7d` by a decoder with `UseNumber()`
(the `default` branch of the element switch): numbers stay exact
`json.Number` tokens; arrays become `[]interface\x7b\x7d`, objects become
`map[string]interface\x7b\x7d`.  Never fails. -/
def decodeGenericNum : J → Value
  | .jnull => .nilV
  | .jbool b => .boolV b
  | .jnum s => .numV s
  | .jstr s => .strV s
  | .jarr xs => .goSlice (decodeGenericNumList xs)
  | .jobj fs => .goMap (decodeGenericNumObj fs [])

def decodeGenericNumList : List J → List Value
  | [] => []
  | x :: xs => decodeGenericNum x :: decodeGenericNumList xs

def decodeGenericNumObj : List (String × J) → List (String × Value) → List (String × Value)
  | [], acc => acc
  | (k, v) :: rest, acc => decodeGenericNumObj rest (mapUpsert acc k (decodeGenericNum v))

end

mutual

/-- Generic decode into `interface\x7b\x7d` by plain `json.Unmarshal` (no
`UseNumber`): numbers become `float64` via `strconv.ParseFloat`, failing on
out-of-range tokens. -/
def decodeGenericPlain : J → Except Err Value
  | .jnull => .ok .nilV
  | .jbool b => .ok (.boolV b)
  | .jnum s =>
    match goParseFloat s with
    | some (m, e) => .ok (.floatV m e)
    | none => .error (.goErr "json: number out of range")
  | .jstr s => .ok (.strV s)
  | .jarr xs =>
    match decodeGenericPlainList xs with
    | .error e => .error e
    | .ok vs => .ok (.goSlice vs)
  | .jobj fs =>
    match decodeGenericPlainObj fs [] with
    | .error e => .error e
    | .ok es => .ok (.goMap es)

def decodeGenericPlainList : List J → Except Err (List Value)
  | [] => .ok []
  | x :: xs =>
    match decodeGenericPlain x with
    | .error e => .error e
    | .ok v =>
      match decodeGenericPlainList xs with
      | .error e => .error e
      | .ok vs => .ok (v :: vs)

def decodeGenericPlainObj : List (String × J) → List (String × Value) → Except Err (List (String × Value))
  | [], acc => .ok acc
  | (k, v) :: rest, acc =>
    match decodeGenericPlain v with
    | .error e => .error e
    | .ok dv => decodeGenericPlainObj rest (mapUpsert acc k dv)

end

/-- Whether the decoded probe map `m` has an entry for `k` (the
`_, ok := m["..."]` tests of types.go:155-185). -/
def hasKeyJ (fields : List (String × J)) (k : String) : Bool :=
  fields.any (fun p => p.1 == k)

/-- The value of the last occurrence of field `k` (plain struct decoding lets
a later duplicate win; with distinct keys this is plain lookup). -/
def lookupLast : List (String × J) → String → Option J
  | [], _ => none
  | (k0, v) :: rest, k =>
    match lookupLast rest k with
    | some r => some r
    | none => if k0 == k then some v else none

/-- Replace any error with the `fmt.Errorf` wrapper message the element switch
produces for a failed tagged decode. -/
def wrapErr (msg : String) : Except Err Value → Except Err Value
  | .error _ => .error (.goErr msg)
  | .ok v => .ok v

/-- Decode of the optional `meta` field by plain `json.Unmarshal`; an absent
field (or JSON null) leaves the Go field at its zero value, the nil
interface. -/
def decodeMetaField (fields : List (String × J)) : Except Err Value :=
  match lookupLast fields "meta" with
  | none => .ok .nilV
  | some j => decodeGenericPlain j

/-- Plain `json.Unmarshal` of a probed object into `Symbol\x7b\x7d`
(types.go:156): the `symbol` field must be a string (JSON null leaves the
zero value `""`); unknown fields are ignored because `DisallowUnknownFields`
is not set on this path. -/
def decodeSymbolObj (fields : List (String × J)) : Except Err Value :=
  match lookupLast fields "symbol" with
  | some (.jstr s) => .ok (.symV s)
  | some .jnull => .ok (.symV "")
  | _ => .error (.goErr "json-decode of symbol failed")

/-- Plain `json.Unmarshal` into `Atom\x7b\x7d` (types.go:162): the `atom`
payload and `meta` decode generically (numbers become `float64`); the result
is an `Atom` struct value, not a `*Atom`. -/
def decodeAtomObj (fields : List (String × J)) : Except Err Value :=
  match (match lookupLast fields "atom" with
         | none => Except.ok Value.nilV
         | some j => decodeGenericPlain j) with
  | .error e => .error e
  | .ok v =>
    match decodeMetaField fields with
    | .error e => .error e
    | .ok mt => .ok (.atomStructV v mt)

/-- Plain `json.Unmarshal` into `Vector\x7b\x7d` (types.go:180): the
`vector` payload is a `[]MalType`, so its elements decode generically —
numbers become `float64`, not `json.Number`. -/
def decodeVecObj (fields : List (String × J)) : Except Err Value :=
  match (match lookupLast fields "vector" with
         | none => Except.ok ([] : List Value)
         | some .jnull => Except.ok ([] : List Value)
         | some (.jarr xs) => decodeGenericPlainList xs
         | some _ => Except.error (Err.goErr "json: cannot unmarshal into vector")) with
  | .error e => .error e
  | .ok vs =>
    match decodeMetaField fields with
    | .error e => .error e
    | .ok mt => .ok (.vecV vs mt)

/-- Plain `json.Unmarshal` into `HashMap\x7b\x7d` (types.go:174): the
`hashmap` payload is a `map[string]MalType`, so its values decode
generically — numbers become `float64`. -/
def decodeHashObj (fields : List (String × J)) : Except Err Value :=
  match (match lookupLast fields "hashmap" with
         | none => Except.ok ([] : List (String × Value))
         | some .jnull => Except.ok ([] : List (String × Value))
         | some (.jobj fs) => decodeGenericPlainObj fs []
         | some _ => Except.error (Err.goErr "json: cannot unmarshal into hashmap")) with
  | .error e => .error e
  | .ok es =>
    match decodeMetaField fields with
    | .error e => .error e
    | .ok mt => .ok (.hashV es mt)

/-- Plain `json.Unmarshal` into `Func\x7b\x7d` (types.go:186, "won't
work"): a func-typed field only accepts JSON null (a no-op leaving `Fn`
nil); any other payload is an unsupported-type error. -/
def decodeFnObj (fields : List (String × J)) : Except Err Value :=
  match (match lookupLast fields "fn" with
         | none => Except.ok (none : Option Nat)
         | some .jnull => Except.ok (none : Option Nat)
         | some _ => Except.error (Err.goErr "json: cannot unmarshal into func field")) with
  | .error e => .error e
  | .ok fn =>
    match decodeMetaField fields with
    | .error e => .error e
    | .ok mt => .ok (.funcV fn mt)

mutual

/-- One iteration of the element loop of `ListMalType.UnmarshalJSON`
(types.go:147-208), dispatching on the first byte of the raw element.  An
object is first decoded generically as the probe map `m` (failing there
fails the element), then probed for the discriminant fields in the fixed
order `symbol`, `atom`, `list`, `hashmap`, `vector`, `fn`; an object
matching none is `"json-decode of unknown type"`.  A number token decodes
into `json.Number`, keeping its exact text.  Everything else decodes
generically with `UseNumber`. -/
def unmarshalElem : J → Except Err Value
  | .jobj fields =>
    match decodeGenericPlain (.jobj fields) with
    | .error e => .error e
    | .ok _ =>
      if hasKeyJ fields "symbol" then
        wrapErr "json-decode of symbol failed" (decodeSymbolObj fields)
      else if hasKeyJ fields "atom" then
        wrapErr "json-decode of atom failed" (decodeAtomObj fields)
      else if hasKeyJ fields "list" then
        wrapErr "json-decode of list failed"
          (match decodeListField fields with
           | .error e => .error e
           | .ok elems =>
             match decodeMetaField fields with
             | .error e => .error e
             | .ok mt => .ok (.listV elems mt))
      else if hasKeyJ fields "hashmap" then
        wrapErr "json-decode of hashmap failed" (decodeHashObj fields)
      else if hasKeyJ fields "vector" then
        wrapErr "json-decode of vector failed" (decodeVecObj fields)
      else if hasKeyJ fields "fn" then
        wrapErr "json-decode of fn failed" (decodeFnObj fields)
      else .error (.goErr "json-decode of unknown type")
  | .jnum s => .ok (.numV s)
  | j => .ok (decodeGenericNum j)

/-- Decode of the `list` field of a probed object: the field has type
`ListMalType`, whose custom `UnmarshalJSON` runs recursively (with
`UseNumber`); the payload must be an array (JSON null leaves the slice
nil, hence empty; an absent field likewise). -/
def decodeListField : List (String × J) → Except Err (List Value)
  | [] => .ok []
  | (k, v) :: rest =>
    if hasKeyJ rest "list" then decodeListField rest
    else if k == "list" then
      match v with
      | .jarr xs => unmarshalList xs
      | .jnull => .ok []
      | _ => .error (.goErr "json: cannot unmarshal into RawMessage slice")
    else decodeListField rest

/-- The element loop of `ListMalType.UnmarshalJSON` over the raw elements of
an array; the first failing element aborts the whole decode. -/
def unmarshalList : List J → Except Err (List Value)
  | [] => .ok []
  | x :: xs =>
    match unmarshalElem x with
    | .error e => .error e
    | .ok v =>
      match unmarshalList xs with
      | .error e => .error e
      | .ok vs => .ok (v :: vs)

end

/-- `ListMalType.UnmarshalJSON` (types.go:140) at the top level: the raw
bytes must form a JSON array (decoded by `JSONUnmarshal` into
`[]json.RawMessage`), whose elements are then decoded one by one. -/
def ListMalType_UnmarshalJSON : J → Except Err (List Value)
  | .jarr xs => unmarshalList xs
  | _ => .error (.goErr "json: cannot unmarshal into RawMessage slice")

/-! ## Well-formedness and comparability predicates -/

/-- Whether an association list has an entry for key `k`. -/
def keyMemV (k : String) (es : List (String × Value)) : Bool :=
  es.any (fun p => p.1 == k)

/-- Go-map well-formedness of an association list: all keys distinct (a Go
`map[string]MalType` cannot hold duplicate keys, and `len` counts keys). -/
def nodupKeysV : List (String × Value) → Bool
  | [] => true
  | (k, _) :: rest => !(keyMemV k rest) && nodupKeysV rest

/-- Whether a value may sit on either side of a Go interface `==` without a
panic: its dynamic type must be comparable.  `Symbol` (a struct of one
string), scalars and pointers are comparable; an `Atom` struct is comparable
when the dynamic contents of its interface fields are; `List`, `Vector`,
`HashMap`, `Func` and `MalFunc` (they contain slice, map or func fields),
bare funcs, generic slices and maps are not. -/
def CmpSafe : Value → Bool
  | .nilV => true
  | .boolV _ => true
  | .intV _ => true
  | .numV _ => true
  | .strV _ => true
  | .floatV _ _ => true
  | .symV _ => true
  | .atomPtr _ => true
  | .atomStructV v mt => CmpSafe v && CmpSafe mt
  | _ => false

mutual

/-- Whether `Equal_Q v v` runs to completion without a Go panic: no
function-typed value (`Func`, `MalFunc`, bare func) and no generic slice or
map may be hit by the `default` branch `a == b`, and every hash map inside
must be well-formed (distinct keys). -/
def EqSelfOK : Value → Bool
  | .listV xs _ => EqSelfOKList xs
  | .vecV xs _ => EqSelfOKList xs
  | .hashV es _ => nodupKeysV es && EqSelfOKEntries es
  | .atomStructV v mt => CmpSafe v && CmpSafe mt
  | .funcV _ _ => false
  | .malfuncV _ _ _ _ _ _ _ => false
  | .rawfuncV _ => false
  | .goSlice _ => false
  | .goMap _ => false
  | _ => true

def EqSelfOKList : List Value → Bool
  | [] => true
  | x :: xs => EqSelfOK x && EqSelfOKList xs

def EqSelfOKEntries : List (String × Value) → Bool
  | [] => true
  | (_, v) :: rest => EqSelfOK v && EqSelfOKEntries rest

end

/-- Whether an `Except` result is a success (used to state that the generic
probe decode of an object succeeded). -/
def exceptOkV : Except Err Value → Bool
  | .ok _ => true
  | .error _ => false

/-- A host whose callbacks all succeed with simple results (used to exercise
`Apply` on concrete inputs). -/
def hostA : Host :=
  ⟨fun _ _ _ => .ok .nilV, fun _ _ _ _ => .ok 0, fun _ _ => .ok .nilV⟩

/-- A host whose environment builder fails (with a boxed-value `BindError`)
for callback id 0 and succeeds with environment 7 otherwise. -/
def hostB : Host :=
  ⟨fun _ _ n => .ok (.intV (n : Int)),
   fun gen _ _ _ => if gen = 0 then .error (.malErr (.strV "bind failure")) else .ok 7,
   fun _ _ => .ok .nilV⟩

/-- A concrete acyclic value exercising every panic-free variant. -/
def vWitness : Value :=
  .listV [.nilV, .boolV true, .intV 3, .numV "12", .strV "abc", .symV "x",
    .vecV [.intV 1, .strV "s"] .nilV,
    .hashV [("a", .intV 1), ("b", .nilV)] .nilV, .atomPtr 5,
    .atomStructV (.intV 2) .nilV, .floatV 3 1] .nilV

/-! ## Supporting lemmas -/

theorem sizeOf_mem_lt_v {x : Value} {xs : List Value} (h : x ∈ xs) :
    sizeOf x < sizeOf xs := by
  induction xs with
  | nil => cases h
  | cons y ys ih =>
    rcases List.mem_cons.mp h with rfl | h2
    · simp; omega
    · have := ih h2; simp; omega

theorem sizeOf_entry_lt_v {k : String} {x : Value} {es : List (String × Value)}
    (h : (k, x) ∈ es) : sizeOf x < sizeOf es := by
  induction es with
  | nil => cases h
  | cons y ys ih =>
    rcases List.mem_cons.mp h with rfl | h2
    · simp; omega
    · have := ih h2; simp; omega

theorem EqSelfOKList_mem {xs : List Value} (h : EqSelfOKList xs = true)
    {x : Value} (hx : x ∈ xs) : EqSelfOK x = true := by
  induction xs with
  | nil => cases hx
  | cons y ys ih =>
    simp only [EqSelfOKList, Bool.and_eq_true] at h
    rcases List.mem_cons.mp hx with rfl | h2
    · exact h.1
    · exact ih h.2 h2

theorem EqSelfOKEntries_mem {es : List (String × Value)} (h : EqSelfOKEntries es = true)
    {p : String × Value} (hp : p ∈ es) : EqSelfOK p.2 = true := by
  induction es with
  | nil => cases hp
  | cons q qs ih =>
    obtain ⟨k0, v0⟩ := q
    simp only [EqSelfOKEntries, Bool.and_eq_true] at h
    rcases List.mem_cons.mp hp with rfl | h2
    · exact h.1
    · exact ih h.2 h2

/-- With distinct keys, reading back an entry of the map returns exactly the
stored value. -/
theorem goMapGet_self {es : List (String × Value)} {k : String} {v : Value}
    (hnd : nodupKeysV es = true) (hmem : (k, v) ∈ es) : goMapGet es k = v := by
  induction es with
  | nil => cases hmem
  | cons q qs ih =>
    obtain ⟨k0, v0⟩ := q
    simp only [nodupKeysV, Bool.and_eq_true, Bool.not_eq_true'] at hnd
    rcases List.mem_cons.mp hmem with heq | h2
    · obtain ⟨rfl, rfl⟩ := Prod.mk.injEq .. ▸ heq
      simp [goMapGet]
    · have hne : (k0 == k) = false := by
        rcases hbe : k0 == k with _ | _
        · rfl
        · exfalso
          have : keyMemV k0 qs = true := by
            have : k0 = k := by simpa using hbe
            subst this
            exact List.any_eq_true.mpr ⟨(k0, v), h2, by simp⟩
          rw [this] at hnd
          exact absurd hnd.1 (by simp)
      simp only [goMapGet, hne, Bool.false_eq_true, if_false]
      exact ih hnd.2 h2

/-- The per-key loop of the hash map case succeeds exactly when every entry of
the left map compares `true` against the (nil-defaulting) lookup in the right
map. -/
theorem eqEntries_true_iff (es bm : List (String × Value)) :
    eqEntries es bm = some true ↔
      ∀ p ∈ es, Equal_Q p.2 (goMapGet bm p.1) = some true := by
  induction es with
  | nil => simp [eqEntries]
  | cons q qs ih =>
    obtain ⟨k, v⟩ := q
    simp only [eqEntries]
    constructor
    · intro h
      rcases hq : Equal_Q v (goMapGet bm k) with _ | b
      · rw [hq] at h; cases h
      · rcases b with _ | _
        · rw [hq] at h; cases h
        · rw [hq] at h
          intro p hp
          rcases List.mem_cons.mp hp with rfl | h2
          · exact hq
          · exact (ih.mp h) p h2
    · intro h
      have hk := h (k, v) (List.mem_cons_self _ _)
      simp only at hk
      rw [hk]
      exact ih.mpr (fun p hp => h p (List.mem_cons_of_mem _ hp))

/-- Reflexive instance of the element loop. -/
theorem eqPairs_refl (xs : List Value) (h : ∀ x ∈ xs, Equal_Q x x = some true) :
    eqPairs xs xs = some true := by
  induction xs with
  | nil => rfl
  | cons x xs ih =>
    have hx := h x (List.mem_cons_self _ _)
    simp only [eqPairs, hx]
    exact ih fun y hy => h y (List.mem_cons_of_mem _ hy)

/-- Pairwise-true element comparisons make the element loop succeed. -/
theorem eqPairs_of_zip : ∀ (xs ys : List Value),
    (∀ p ∈ xs.zip ys, Equal_Q p.1 p.2 = some true) → eqPairs xs ys = some true := by
  intro xs
  induction xs with
  | nil => intro ys _; rcases ys with _ | ⟨y, ys⟩ <;> rfl
  | cons x xs ih =>
    intro ys h
    rcases ys with _ | ⟨y, ys⟩
    · rfl
    · have hx := h (x, y) (by simp [List.zip_cons_cons])
      simp only at hx
      simp only [eqPairs, hx]
      exact ih ys (fun p hp => h p (by simp [List.zip_cons_cons]; right; exact hp))

theorem zip_mem_swap {α β : Type} {a : α} {b : β} :
    ∀ {xs : List α} {ys : List β}, (a, b) ∈ xs.zip ys → (b, a) ∈ ys.zip xs := by
  intro xs
  induction xs with
  | nil => intro ys h; simp [List.zip] at h
  | cons x xs ih =>
    intro ys h
    rcases ys with _ | ⟨y, ys⟩
    · simp [List.zip] at h
    · rcases List.mem_cons.mp h with heq | h2
      · obtain ⟨rfl, rfl⟩ := Prod.mk.injEq .. ▸ heq
        exact List.mem_cons_self _ _
      · exact List.mem_cons_of_mem _ (ih h2)

/-- Reflexivity of the modelled Go interface `==` on comparable values. -/
theorem goIfaceEq_refl : ∀ v : Value, CmpSafe v = true → goIfaceEq v v = some true := by
  have main : ∀ n : Nat, ∀ v : Value, sizeOf v ≤ n → CmpSafe v = true →
      goIfaceEq v v = some true := by
    intro n
    induction n using Nat.strong_induction_on with
    | _ n ih =>
      intro v hsz hcs
      match v with
      | .nilV => rfl
      | .boolV b => simp [goIfaceEq]
      | .intV x => simp [goIfaceEq]
      | .numV s => simp [goIfaceEq]
      | .strV s => simp [goIfaceEq]
      | .floatV m e => simp [goIfaceEq, floatEqB]
      | .symV s => simp [goIfaceEq]
      | .atomPtr r => simp [goIfaceEq]
      | .atomStructV v1 mt1 =>
        simp only [CmpSafe, Bool.and_eq_true] at hcs
        have h1 : sizeOf v1 < sizeOf (Value.atomStructV v1 mt1) := by
          simp only [Value.atomStructV.sizeOf_spec]
          omega
        have h2 : sizeOf mt1 < sizeOf (Value.atomStructV v1 mt1) := by
          simp only [Value.atomStructV.sizeOf_spec]
          omega
        have e1 := ih (sizeOf v1) (by omega) v1 le_rfl hcs.1
        have e2 := ih (sizeOf mt1) (by omega) mt1 le_rfl hcs.2
        show (match goIfaceEq v1 v1 with
              | none => none
              | some false => some false
              | some true => goIfaceEq mt1 mt1) = some true
        rw [e1]
        exact e2
      | .funcV f mt => simp [CmpSafe] at hcs
      | .malfuncV a1 a2 a3 a4 a5 a6 a7 => simp [CmpSafe] at hcs
      | .rawfuncV f => simp [CmpSafe] at hcs
      | .listV xs mt => simp [CmpSafe] at hcs
      | .vecV xs mt => simp [CmpSafe] at hcs
      | .hashV es mt => simp [CmpSafe] at hcs
      | .goSlice xs => simp [CmpSafe] at hcs
      | .goMap es => simp [CmpSafe] at hcs
  intro v
  exact main (sizeOf v) v le_rfl

/-- Reflexivity of `Equal_Q` on panic-free, well-formed values: on every value
built without function values (and without generic slices or maps in
interface-compared positions, and with well-formed hash maps), `Equal_Q v v`
terminates normally and returns true. -/
theorem Equal_Q_refl : ∀ v : Value, EqSelfOK v = true → Equal_Q v v = some true := by
  have main : ∀ n : Nat, ∀ v : Value, sizeOf v ≤ n → EqSelfOK v = true →
      Equal_Q v v = some true := by
    intro n
    induction n using Nat.strong_induction_on with
    | _ n ih =>
      intro v hsz hok
      match v with
      | .nilV => rfl
      | .boolV b => simp [Equal_Q, typeTag, Sequential_Q, goIfaceEq]
      | .intV x => simp [Equal_Q, typeTag, Sequential_Q, goIfaceEq]
      | .numV s => simp [Equal_Q, typeTag, Sequential_Q, goIfaceEq]
      | .strV s => simp [Equal_Q, typeTag, Sequential_Q, goIfaceEq]
      | .floatV m e => simp [Equal_Q, typeTag, Sequential_Q, goIfaceEq, floatEqB]
      | .symV s => simp [Equal_Q, typeTag, Sequential_Q]
      | .atomPtr r => simp [Equal_Q, typeTag, Sequential_Q, goIfaceEq]
      | .atomStructV v1 mt1 =>
        have := goIfaceEq_refl (.atomStructV v1 mt1) (by simpa [CmpSafe, EqSelfOK] using hok)
        simpa [Equal_Q, typeTag, Sequential_Q] using this
      | .listV xs mt =>
        simp only [EqSelfOK] at hok
        simp only [Equal_Q, typeTag, Sequential_Q]
        norm_num
        apply eqPairs_refl
        intro x hx
        have hlt : sizeOf x < sizeOf (Value.listV xs mt) := by
          have := sizeOf_mem_lt_v hx
          simp
          omega
        exact ih (sizeOf x) (by omega) x le_rfl (EqSelfOKList_mem hok hx)
      | .vecV xs mt =>
        simp only [EqSelfOK] at hok
        simp only [Equal_Q, typeTag, Sequential_Q]
        norm_num
        apply eqPairs_refl
        intro x hx
        have hlt : sizeOf x < sizeOf (Value.vecV xs mt) := by
          have := sizeOf_mem_lt_v hx
          simp
          omega
        exact ih (sizeOf x) (by omega) x le_rfl (EqSelfOKList_mem hok hx)
      | .hashV es mt =>
        simp only [EqSelfOK, Bool.and_eq_true] at hok
        simp only [Equal_Q, typeTag, Sequential_Q]
        norm_num
        apply (eqEntries_true_iff es es).mpr
        intro p hp
        obtain ⟨k, v0⟩ := p
        have hget : goMapGet es k = v0 := goMapGet_self hok.1 hp
        simp only [hget]
        have hlt : sizeOf v0 < sizeOf (Value.hashV es mt) := by
          have := sizeOf_entry_lt_v hp
          simp
          omega
        exact ih (sizeOf v0) (by omega) v0 le_rfl
          (EqSelfOKEntries_mem hok.2 (p := (k, v0)) hp)
      | .funcV f mt => simp [EqSelfOK] at hok
      | .malfuncV a1 a2 a3 a4 a5 a6 a7 => simp [EqSelfOK] at hok
      | .rawfuncV f => simp [EqSelfOK] at hok
      | .goSlice xs => simp [EqSelfOK] at hok
      | .goMap es => simp [EqSelfOK] at hok
  intro v
  exact main (sizeOf v) v le_rfl

/-- A successful last-occurrence lookup means the probe map has the key. -/
theorem hasKeyJ_of_lookupLast {fields : List (String × J)} {k : String}
    (h : (lookupLast fields k).isSome = true) : hasKeyJ fields k = true := by
  induction fields with
  | nil => simp [lookupLast] at h
  | cons q qs ih =>
    obtain ⟨k0, v0⟩ := q
    simp only [lookupLast] at h
    rcases hrest : lookupLast qs k with _ | r
    · rw [hrest] at h
      rcases hbe : k0 == k with _ | _
      · rw [hbe] at h; cases h
      · simp [hasKeyJ, hbe]
    · rw [hrest] at h
      have := ih (by rw [hrest]; rfl)
      simp only [hasKeyJ, List.any_cons, Bool.or_eq_true]
      right
      simpa [hasKeyJ] using this

/-! ## Claims -/

set_option maxRecDepth 1000000

/-- C1 counterexample: `Equal_Q` applied to a `Func` value (here the
non-functional `Func` the decoder itself produces for a null `fn` payload)
and itself reaches the `default` branch `a == b`, and Go panics comparing
the uncomparable struct type `Func`; the claim promised `true` with no
failure or panic. -/
theorem C1_counterexample :
    Equal_Q (.funcV none .nilV) (.funcV none .nilV) = none := rfl

/-- C1 (amended): `Equal(v, v)` is true — returning normally, without panic —
for every acyclic value of the model that contains no function-typed value
(`NativeFunction`/`Func`, `Closure`/`MalFunc`, bare func) and no generic
slice/map in an interface-compared position, with well-formed hash maps;
on function values the comparison panics instead (see the
counterexample). -/
theorem C1_theorem (v : Value) (h : EqSelfOK v = true) : Equal_Q v v = some true :=
  Equal_Q_refl v h

/-- C1 witness: the reflexivity theorem applied to a concrete value
exercising every panic-free variant. -/
theorem C1_witness : EqSelfOK vWitness = true ∧ Equal_Q vWitness vWitness = some true :=
  ⟨by decide, C1_theorem vWitness (by decide)⟩

/-- C2 counterexample: for `a = \x7bk: 1\x7d` and `b = \x7bk: 1, other: 2\x7d` the
key-count check `len(am) != len(bm)` fires first, so `Equal(a, b)` is false,
not true as claimed. -/
theorem C2_counterexample :
    Equal_Q (.hashV [("k", .intV 1)] .nilV)
      (.hashV [("k", .intV 1), ("other", .intV 2)] .nilV) = some false := rfl

/-- C2 (amended): for maps of different sizes both directions are false
(the key-count check precedes the per-key scan); the one-directional scan
makes equality asymmetric only between maps of equal size, through the
nil-defaulting lookup — e.g. `a = \x7bk: nil\x7d`, `b = \x7bother: 1\x7d` gives
`Equal(a, b)` true but `Equal(b, a)` false. -/
theorem C2_theorem :
    Equal_Q (.hashV [("k", .intV 1)] .nilV)
      (.hashV [("k", .intV 1), ("other", .intV 2)] .nilV) = some false ∧
    Equal_Q (.hashV [("k", .intV 1), ("other", .intV 2)] .nilV)
      (.hashV [("k", .intV 1)] .nilV) = some false ∧
    Equal_Q (.hashV [("k", .nilV)] .nilV)
      (.hashV [("other", .intV 1)] .nilV) = some true ∧
    Equal_Q (.hashV [("other", .intV 1)] .nilV)
      (.hashV [("k", .nilV)] .nilV) = some false :=
  ⟨rfl, rfl, rfl, rfl⟩

/-- C3 counterexample: `a = \x7bk: nil\x7d` and `b = \x7bx: nil\x7d` are `Equal`
(the missing key `"k"` reads from `b` as the nil zero value, which equals
`a`'s nil value) even though the key `"k"` of `a` does not exist in `b`,
refuting the claimed "every key present in `a` exists in `b`" direction. -/
theorem C3_counterexample :
    Equal_Q (.hashV [("k", .nilV)] .nilV) (.hashV [("x", .nilV)] .nilV) = some true ∧
    keyMemV "k" [("x", Value.nilV)] = false :=
  ⟨rfl, rfl⟩

/-- C3 (amended): for well-formed hash maps, `Equal(a, b)` is true iff the key
counts agree and every key `k` of `a` has `a[k]` recursively Equal to `b`'s
value at `k`, where a key missing from `b` reads as the nil zero value;
keys present only in `b` are never inspected. -/
theorem C3_theorem (am bm : List (String × Value)) (ma mb : Value)
    (h1 : nodupKeysV am = true) (h2 : nodupKeysV bm = true) :
    Equal_Q (.hashV am ma) (.hashV bm mb) = some true ↔
      (am.length = bm.length ∧ ∀ p ∈ am, Equal_Q p.2 (goMapGet bm p.1) = some true) := by
  simp only [Equal_Q, typeTag, Sequential_Q]
  norm_num
  by_cases hlen : am.length = bm.length
  · simp [hlen, eqEntries_true_iff]
  · simp [bne_iff_ne, hlen]

/-- C3 witness: the characterization applied to two concrete well-formed
maps. -/
theorem C3_witness :
    Equal_Q (.hashV [("k", .intV 1)] .nilV) (.hashV [("k", .intV 1)] .nilV) = some true ↔
      (([("k", Value.intV 1)] : List (String × Value)).length =
          ([("k", Value.intV 1)] : List (String × Value)).length ∧
        ∀ p ∈ [("k", Value.intV 1)],
          Equal_Q p.2 (goMapGet [("k", Value.intV 1)] p.1) = some true) :=
  C3_theorem [("k", .intV 1)] [("k", .intV 1)] .nilV .nilV (by decide) (by decide)

/-- C4 counterexample: an element object carrying the recognized field
`symbol` plus an extra unrecognized field `junk` decodes successfully to the
Symbol — the tagged-object payloads go through plain `json.Unmarshal`, which
ignores unknown fields; the claim required the whole decode to fail. -/
theorem C4_counterexample :
    unmarshalElem (.jobj [("symbol", .jstr "x"), ("junk", .jnum "1")]) = .ok (.symV "x") :=
  rfl

/-- C4 (amended): decoding is not uniformly strict.  `DisallowUnknownFields`
is set only on the `JSONUnmarshal` paths, whose targets are never structs, so
it never rejects anything; the tagged-object branches use plain
`json.Unmarshal`, so any extra unrecognized fields on a tagged object are
ignored: whenever the generic probe of the object succeeds and its last
`symbol` field is a string, the element decodes to that Symbol no matter
what other fields are present. -/
theorem C4_theorem (fields : List (String × J)) (s : String)
    (hprobe : exceptOkV (decodeGenericPlain (.jobj fields)) = true)
    (hsym : lookupLast fields "symbol" = some (.jstr s)) :
    unmarshalElem (.jobj fields) = .ok (.symV s) := by
  have hkey : hasKeyJ fields "symbol" = true :=
    hasKeyJ_of_lookupLast (by rw [hsym]; rfl)
  simp only [unmarshalElem]
  rcases hp : decodeGenericPlain (.jobj fields) with e | v
  · rw [hp] at hprobe
    simp [exceptOkV] at hprobe
  · simp only [hp, hkey, if_true]
    simp [decodeSymbolObj, hsym, wrapErr]

/-- C4 witness: the permissiveness theorem applied to a symbol object with
two extra unrecognized fields. -/
theorem C4_witness :
    unmarshalElem (.jobj [("symbol", .jstr "y"), ("junk", .jnum "2"), ("more", .jbool true)]) =
      .ok (.symV "y") :=
  C4_theorem [("symbol", .jstr "y"), ("junk", .jnum "2"), ("more", .jbool true)] "y" rfl rfl

/-- C5 counterexample: the 30-digit literal inside a `vector` payload decodes
through plain `json.Unmarshal` into `float64` — the payload slice is a bare
`[]MalType`, not the `UseNumber` path — and the stored double
`7017705969039166 * 2^44` is not the written integer: digits are lost. -/
theorem C5_counterexample :
    unmarshalElem (.jobj [("vector", .jarr [.jnum "123456789012345678901234567890"])]) =
      .ok (.vecV [.floatV 7017705969039166 44] .nilV) ∧
    (7017705969039166 * 2 ^ 44 : Int) ≠ (123456789012345678901234567890 : Int) :=
  ⟨rfl, by decide⟩

/-- C5 (amended): only numeric literals decoded by the element switch itself
— elements of the raw element stream, including elements of a nested
`list` payload — take the exact-text `json.Number` path preserving all
digits; a numeric literal inside a `vector` payload (likewise `hashmap` or
`atom` payloads) decodes via plain `json.Unmarshal` to a `float64`
approximation. -/
theorem C5_theorem :
    (∀ s : String, unmarshalElem (.jnum s) = .ok (.numV s)) ∧
    (unmarshalElem (.jobj [("list", .jarr [.jnum "123456789012345678901234567890"])]) =
      .ok (.listV [.numV "123456789012345678901234567890"] .nilV)) ∧
    (unmarshalElem (.jobj [("vector", .jarr [.jnum "123456789012345678901234567890"])]) =
      .ok (.vecV [.floatV 7017705969039166 44] .nilV)) :=
  ⟨fun _ => rfl, rfl, rfl⟩

/-- C6 counterexample: a bare `func([]MalType) (MalType, error)` value is
neither a `Func` (NativeFunction) nor a `MalFunc` (Closure), yet `Apply`
invokes it successfully instead of failing with the not-callable error. -/
theorem C6_counterexample :
    Apply hostA (.rawfuncV 0) [] = some (.ok .nilV) ∧
    Apply hostA (.rawfuncV 0) [] ≠
      some (.error (.goErr "Invalid function to Apply")) :=
  ⟨rfl, by simp [Apply, hostA]⟩

/-- C6 (amended): for every value that is neither a `MalFunc`, nor a `Func`,
nor a bare host function — the three cases of `Apply`'s type switch —
`Apply` fails with `errors.New("Invalid function to Apply")`, for every host
and argument list. -/
theorem C6_theorem (H : Host) (fn : Value) (a : List Value)
    (h : applyCallable fn = false) :
    Apply H fn a = some (.error (.goErr "Invalid function to Apply")) := by
  cases fn <;> simp_all [applyCallable, Apply]

/-- C6 witness: the amended theorem at a number value. -/
theorem C6_witness :
    Apply hostA (.intV 3) [] = some (.error (.goErr "Invalid function to Apply")) :=
  C6_theorem hostA (.intV 3) [] rfl

/-- C7: applying a Closure first runs its EnvironmentBuilder on
`(f.Env, f.Params, List\x7bargs, nil\x7d)`; when the builder reports an
error, `Apply` returns exactly that error — for every host, in particular
whatever the Evaluator table does, so the Evaluator is not consulted — and
when the builder succeeds, `Apply` returns the Evaluator's result on
`(f.Exp, newEnv)`. -/
theorem C7_theorem (H : Host) (ev : Nat) (exp : Value) (env : Nat) (params : Value)
    (mac : Bool) (gen : Nat) (mt : Value) (a : List Value) :
    (∀ e : Err, H.genEnvFn gen env params (.listV a .nilV) = .error e →
      Apply H (.malfuncV ev exp env params mac gen mt) a = some (.error e)) ∧
    (∀ newEnv : Nat, H.genEnvFn gen env params (.listV a .nilV) = .ok newEnv →
      Apply H (.malfuncV ev exp env params mac gen mt) a = some (H.evalFn ev exp newEnv)) := by
  constructor <;> intro x hx <;> simp [Apply, hx]

/-- C7 witness: with a concrete host whose builder fails for callback id 0
and builds environment 7 for id 1, both branches of the theorem at concrete
closures. -/
theorem C7_witness :
    Apply hostB (.malfuncV 0 .nilV 0 .nilV false 0 .nilV) [] =
      some (.error (.malErr (.strV "bind failure"))) ∧
    Apply hostB (.malfuncV 0 .nilV 0 .nilV false 1 .nilV) [] =
      some (hostB.evalFn 0 .nilV 7) :=
  ⟨(C7_theorem hostB 0 .nilV 0 .nilV false 0 .nilV []).1 _ rfl,
   (C7_theorem hostB 0 .nilV 0 .nilV false 1 .nilV []).2 7 rfl⟩

/-- C8 counterexample: a List and a Vector whose single elements are pairwise
Equal (the hash maps compare true left-to-right through the nil-defaulting
lookup) satisfy `Equal(l, vec)` but not `Equal(vec, l)` — element equality is
not symmetric, so the claimed both-directions conclusion fails. -/
theorem C8_counterexample :
    Equal_Q (.hashV [("k", .nilV)] .nilV) (.hashV [("x", .intV 1)] .nilV) = some true ∧
    Equal_Q (.listV [.hashV [("k", .nilV)] .nilV] .nilV)
      (.vecV [.hashV [("x", .intV 1)] .nilV] .nilV) = some true ∧
    Equal_Q (.vecV [.hashV [("x", .intV 1)] .nilV] .nilV)
      (.listV [.hashV [("k", .nilV)] .nilV] .nilV) = some false :=
  ⟨rfl, rfl, rfl⟩

/-- C8 (amended): for a List and a Vector of the same length whose elements
are pairwise Equal left-to-right, `Equal(l, vec)` is true; `Equal(vec, l)`
is additionally true when the elements are also pairwise Equal
right-to-left (element equality need not be symmetric — see the
counterexample). -/
theorem C8_theorem (xs ys : List Value) (m1 m2 : Value)
    (hlen : xs.length = ys.length)
    (hfwd : ∀ p ∈ xs.zip ys, Equal_Q p.1 p.2 = some true) :
    Equal_Q (.listV xs m1) (.vecV ys m2) = some true ∧
      ((∀ p ∈ xs.zip ys, Equal_Q p.2 p.1 = some true) →
        Equal_Q (.vecV ys m2) (.listV xs m1) = some true) := by
  constructor
  · simp [Equal_Q, typeTag, Sequential_Q, hlen, eqPairs_of_zip xs ys hfwd]
  · intro hrev
    have hrev2 : ∀ p ∈ ys.zip xs, Equal_Q p.1 p.2 = some true := by
      intro p hp
      obtain ⟨b, a⟩ := p
      exact hrev (a, b) (zip_mem_swap hp)
    simp [Equal_Q, typeTag, Sequential_Q, hlen, eqPairs_of_zip ys xs hrev2]

/-- C8 witness: both directions at a concrete List/Vector pair with
identical elements. -/
theorem C8_witness :
    Equal_Q (.listV [.intV 1, .strV "a"] .nilV) (.vecV [.intV 1, .strV "a"] .nilV) = some true ∧
    Equal_Q (.vecV [.intV 1, .strV "a"] .nilV) (.listV [.intV 1, .strV "a"] .nilV) = some true :=
  ⟨(C8_theorem [.intV 1, .strV "a"] [.intV 1, .strV "a"] .nilV .nilV rfl (by decide)).1,
   (C8_theorem [.intV 1, .strV "a"] [.intV 1, .strV "a"] .nilV .nilV rfl (by decide)).2
     (by decide)⟩

/-- C9: `SetMacro` on a Closure returns a Closure with the macro flag true
(`GetMacro` reads it back as true) and every other field — body, environment,
parameter spec, callbacks, metadata — unchanged; the Go method takes its
receiver by value, so the original closure keeps its prior flag (read back
unchanged by `GetMacro`), which the pure model reflects. -/
theorem C9_theorem (ev : Nat) (exp : Value) (env : Nat) (params : Value)
    (mac : Bool) (gen : Nat) (mt : Value) :
    SetMacro (.malfuncV ev exp env params mac gen mt) = .malfuncV ev exp env params true gen mt ∧
    GetMacro (SetMacro (.malfuncV ev exp env params mac gen mt)) = true ∧
    GetMacro (.malfuncV ev exp env params mac gen mt) = mac :=
  ⟨rfl, rfl, rfl⟩

/-- C10: `Number_Q` is the type assertion to the host-native `int`: it holds
exactly on `int` values, and is false on every `json.Number` token — in
particular on everything the decoder's numeric-literal path produces — and
on every `float64`. -/
theorem C10_theorem :
    (∀ v : Value, Number_Q v = true ↔ ∃ n : Int, v = .intV n) ∧
    (∀ s : String, Number_Q (.numV s) = false ∧ unmarshalElem (.jnum s) = .ok (.numV s)) ∧
    (∀ m e : Int, Number_Q (.floatV m e) = false) := by
  refine ⟨?_, fun s => ⟨rfl, rfl⟩, fun m e => rfl⟩
  intro v
  constructor
  · intro h
    match v with
    | .intV n => exact ⟨n, rfl⟩
    | .nilV | .boolV _ | .numV _ | .strV _ | .floatV _ _ | .symV _ | .listV _ _
    | .vecV _ _ | .hashV _ _ | .funcV _ _ | .malfuncV _ _ _ _ _ _ _ | .rawfuncV _
    | .atomPtr _ | .atomStructV _ _ | .goSlice _ | .goMap _ => simp [Number_Q] at h
  · rintro ⟨n, rfl⟩
    rfl

end Mal
